import Mathlib

set_option maxRecDepth 100000

/-!
Shallow embedding of the caching / rate-limiting core of the
`website-analytics-api` repository and proofs about it.

The modelled source files are:
* the Redis adapter (`initRedis`, `cacheGet`, `cacheSet`, `cacheMGet`,
  `cacheIncr`, ...) from `src/unnamed/part_001` (the optimized variant,
  lines 190-352);
* the enhanced caching layer (`enhancedCacheGet`, `enhancedCacheSet`,
  `batchCacheGet`, `getCacheStatistics`, ...) from `src/unnamed/part_005`;
* the `OptimizedRateLimiter.middleware` from `src/unnamed/part_011`.

Modelling conventions:
* JavaScript values that cross the cache are modelled by the JSON tree
  type `JVal` (arrays and objects are cons-encoded so that equality is
  decidable).  `JVal.undefined` is JavaScript's `undefined`.
* Redis stores `JSON.stringify` of a value and returns `JSON.parse` of
  that string.  For values without `undefined` inside (`JVal.jsonClean`)
  parse-of-stringify is the identity, so the model lets the store keep
  the tree itself; the serialized string only matters for the 1024-byte
  compression threshold, computed by `jsonStringify`.
* The gzip-then-base64 payload produced by the compression path is an
  opaque string; the model represents it by the constructor
  `JVal.packed v` (the base64 string of the gzip of `JSON.stringify v`).
  Gunzip-then-parse of such a payload yields `v` back (zlib is lossless
  and parse-of-stringify is the identity on clean values); gunzip of any
  other string is not a valid gzip stream and throws.
* Time is an explicit millisecond timestamp (`Date.now()`).
* The asynchronous operations of the source are sequentialized: each
  claim is about a single caller performing operations in order, which
  is exactly the per-request interleaving the spec's testable
  properties describe.
-/

/-- JSON-style JavaScript value.  Arrays and objects are cons-encoded:
`arrCons h t` is the array with head `h` and tail-array `t`, and
`objCons f v t` is the object with first field `f` bound to `v` and
remaining fields `t`.  `packed v` is the opaque base64-of-gzip string
produced by the compression path of `enhancedCacheSet` for payload `v`. -/
inductive JVal where
  | null
  | undefined
  | bool (b : Bool)
  | num (n : Int)
  | str (s : String)
  | arrNil
  | arrCons (hd tl : JVal)
  | objNil
  | objCons (field : String) (v tl : JVal)
  | packed (v : JVal)
deriving DecidableEq, Repr

/-- JavaScript truthiness of a value (`if (value)`): `null`, `undefined`,
`false`, `0` and the empty string are falsy; arrays and objects are
always truthy.  A packed payload is a non-empty base64 string, hence
truthy. -/
def JVal.truthy : JVal → Bool
  | .null => false
  | .undefined => false
  | .bool b => b
  | .num n => n != 0
  | .str s => !s.isEmpty
  | .arrNil => true
  | .arrCons _ _ => true
  | .objNil => true
  | .objCons _ _ _ => true
  | .packed _ => true

/-- Strict equality with `null` (`value === null`). -/
def JVal.isNull : JVal → Bool
  | .null => true
  | _ => false

/-- JavaScript property access `value[name]`: field lookup on objects,
`undefined` on everything else (and for missing fields). -/
def JVal.getField : JVal → String → JVal
  | .objCons f v t, name => if f = name then v else JVal.getField t name
  | _, _ => .undefined

/-- Array push returning the extended array, or `none` when the receiver
is not an array (JavaScript `x.push(y)` throws a TypeError then). -/
def JVal.arrPush : JVal → JVal → Option JVal
  | .arrNil, x => some (.arrCons x .arrNil)
  | .arrCons h t, x => (JVal.arrPush t x).map (.arrCons h ·)
  | _, _ => none

/-- Array membership test (used to state that a key was registered in a
tag's index set). -/
def JVal.arrMem : JVal → JVal → Bool
  | .arrCons h t, x => if h = x then true else JVal.arrMem t x
  | _, _ => false

/-- Value free of `undefined` and of opaque packed payloads: exactly the
values representable by JSON, on which `JSON.parse (JSON.stringify v)`
is the identity so the tree-level store model is faithful. -/
def JVal.jsonClean : JVal → Bool
  | .undefined => false
  | .packed _ => false
  | .arrCons h t => h.jsonClean && t.jsonClean
  | .objCons _ v t => v.jsonClean && t.jsonClean
  | _ => true

/-- JSON string escaping of a single character as performed by
`JSON.stringify`. -/
def jsonEscapeChar (c : Char) : String :=
  if c = '"' then "\\\""
  else if c = '\\' then "\\\\"
  else if c = '\n' then "\\n"
  else if c = '\r' then "\\r"
  else if c = '\t' then "\\t"
  else if c.toNat < 32 then "\\u00" ++ toString c.toNat
  else String.singleton c

/-- JSON string escaping as performed by `JSON.stringify`. -/
def jsonEscape (s : String) : String :=
  s.data.foldl (fun acc c => acc ++ jsonEscapeChar c) ""

mutual

/-- Model of `JSON.stringify`, used by `enhancedCacheSet` for the
1024-character compression threshold.  Top-level `undefined` has no
JSON serialization (the source throws before using it); clean values
never contain it.  A packed payload is an opaque base64 string and is
rendered as a placeholder (clean values never contain it either). -/
def jsonStringify : JVal → String
  | .null => "null"
  | .undefined => "null"
  | .bool true => "true"
  | .bool false => "false"
  | .num n => toString n
  | .str s => "\"" ++ jsonEscape s ++ "\""
  | .arrNil => "[]"
  | .arrCons h t => "[" ++ jsonStringify h ++ jsonStringifyArrTail t
  | .objNil => "\x7b\x7d"
  | .objCons f v t =>
      "\x7b\"" ++ jsonEscape f ++ "\":" ++ jsonStringify v ++ jsonStringifyObjTail t
  | .packed _ => "\"<gzip-base64-payload>\""

/-- Serialization of the tail of a cons-encoded array. -/
def jsonStringifyArrTail : JVal → String
  | .arrNil => "]"
  | .arrCons h t => "," ++ jsonStringify h ++ jsonStringifyArrTail t
  | _ => "]"

/-- Serialization of the tail of a cons-encoded object. -/
def jsonStringifyObjTail : JVal → String
  | .objNil => "\x7d"
  | .objCons f v t =>
      ",\"" ++ jsonEscape f ++ "\":" ++ jsonStringify v ++ jsonStringifyObjTail t
  | _ => "\x7d"

end

/-- Insertion-ordered association list lookup: the semantics of
`Map.prototype.get` (and of a Redis keyspace lookup before expiry is
taken into account). -/
def mapGet {α : Type} (m : List (String × α)) (k : String) : Option α :=
  match m with
  | [] => none
  | (k', v) :: rest => if k' = k then some v else mapGet rest k

/-- Insertion-ordered association list update: the semantics of
`Map.prototype.set` (replace in place when the key exists, append
otherwise). -/
def mapSet {α : Type} (m : List (String × α)) (k : String) (v : α) :
    List (String × α) :=
  match m with
  | [] => [(k, v)]
  | (k', v') :: rest => if k' = k then (k, v) :: rest else (k', v') :: mapSet rest k v

/-- Association list deletion: the semantics of `Map.prototype.delete`. -/
def mapDelete {α : Type} (m : List (String × α)) (k : String) :
    List (String × α) :=
  m.filter (fun p => p.1 ≠ k)

/-- Connection state of the shared Redis client (`redisClient` in
`part_001`): the client reference may be `null`, the connection may be
closed (`!redisClient.isOpen`), it may be open and healthy, or open but
failing (every command rejects, landing in the `catch` blocks). -/
inductive ConnState where
  | absent
  | closed
  | ready
  | failing
deriving DecidableEq, Repr

/-- Entry of the Redis keyspace: the parsed form of the stored string and
the optional absolute expiry timestamp in milliseconds (`none` for a key
without TTL, as produced by a bare `INCR`). -/
structure RedisEntry where
  value : JVal
  expiresAt : Option Nat
deriving DecidableEq, Repr

/-- Slot of the in-memory L1 cache (`memoryCache` in `part_005`):
`\x7bvalue, expires\x7d` with an absolute millisecond expiry. -/
structure Slot where
  value : JVal
  expires : Nat
deriving DecidableEq, Repr

/-- Process-wide cache statistics counters (`cacheStats` in `part_005`). -/
structure CacheStats where
  hits : Nat
  misses : Nat
  memoryHits : Nat
  redisHits : Nat
  sets : Nat
  deletes : Nat
deriving DecidableEq, Repr

/-- All-zero statistics, the state produced by `resetCacheStatistics`. -/
def zeroStats : CacheStats := ⟨0, 0, 0, 0, 0, 0⟩

/-- Combined state of the subsystem: Redis connection state and keyspace,
the process-local `memoryCache`, and the statistics counters. -/
structure Sys where
  conn : ConnState
  redis : List (String × RedisEntry)
  l1 : List (String × Slot)
  stats : CacheStats
deriving DecidableEq, Repr

/-- Redis-side lookup respecting TTL: a key is visible while
`now < expiresAt` and gone once the deadline passes (Redis removes the
key at its expiry time). -/
def redisLive (m : List (String × RedisEntry)) (now : Nat) (k : String) :
    Option RedisEntry :=
  match mapGet m k with
  | some e =>
      match e.expiresAt with
      | some t => if now < t then some e else none
      | none => some e
  | none => none

/-- Model of `cacheGet` (part_001, lines 191-202): `null` when the client
is absent or not open, `null` when the command throws, otherwise the
parse of the stored string (Redis `nil` parses to `null`).  The stored
strings are non-empty, so the `data ? JSON.parse(data) : null` guard
reduces to plain parsing. -/
def cacheGet (sys : Sys) (now : Nat) (key : String) : JVal :=
  match sys.conn with
  | .ready =>
      match redisLive sys.redis now key with
      | some e => e.value
      | none => .null
  | _ => .null

/-- Model of `cacheSet` (part_001, lines 204-215): `false` when the
client is absent/closed or the command throws; `setEx` also rejects a
non-positive TTL and an `undefined` payload (`JSON.stringify(undefined)`
is not a string), both landing in the `catch`.  On success the key is
stored with expiry `now + ttl * 1000`. -/
def cacheSet (sys : Sys) (now : Nat) (key : String) (value : JVal) (ttl : Nat) :
    Bool × Sys :=
  match sys.conn with
  | .ready =>
      if value = .undefined ∨ ttl = 0 then (false, sys)
      else
        (true, { sys with
                  redis := mapSet sys.redis key ⟨value, some (now + ttl * 1000)⟩ })
  | _ => (false, sys)

/-- Model of `cacheMGet` (part_001, lines 262-273): the empty list when
the client is absent/closed or the key list is empty, a list of `null`
when the command throws, and otherwise the order-preserving multi-get
with `null` for absent keys. -/
def cacheMGet (sys : Sys) (now : Nat) (keys : List String) : List JVal :=
  match sys.conn with
  | .ready =>
      if keys.isEmpty then []
      else keys.map (fun k =>
        match redisLive sys.redis now k with
        | some e => e.value
        | none => .null)
  | .failing => keys.map (fun _ => .null)
  | _ => []

/-- Model of `cacheIncr` (part_001, lines 296-310): `null` when the
client is absent/closed or a command throws (also when `INCR` hits a
non-integer value).  Otherwise `INCR` creates an absent/expired key at 1
(initially without TTL) or bumps the live counter keeping its expiry;
when the returned value is 1 and the ttl argument is truthy, `EXPIRE`
sets the expiry to `now + ttl * 1000`. -/
def cacheIncr (sys : Sys) (now : Nat) (key : String) (ttl : Nat) :
    Option Int × Sys :=
  match sys.conn with
  | .ready =>
      match redisLive sys.redis now key with
      | some e =>
          match e.value with
          | .num n =>
              if n + 1 = 1 ∧ ttl ≠ 0 then
                (some (n + 1),
                 { sys with
                    redis := mapSet sys.redis key ⟨.num (n + 1), some (now + ttl * 1000)⟩ })
              else
                (some (n + 1),
                 { sys with redis := mapSet sys.redis key ⟨.num (n + 1), e.expiresAt⟩ })
          | _ => (none, sys)
      | none =>
          if ttl ≠ 0 then
            (some 1,
             { sys with redis := mapSet sys.redis key ⟨.num 1, some (now + ttl * 1000)⟩ })
          else
            (some 1, { sys with redis := mapSet sys.redis key ⟨.num 1, none⟩ })
  | _ => (none, sys)

/-- Capacity bound of the L1 cache (`MEMORY_CACHE_SIZE` in part_005). -/
def MEMORY_CACHE_SIZE : Nat := 1000

/-- TTL ceiling of the L1 cache in milliseconds (`MEMORY_CACHE_TTL`). -/
def MEMORY_CACHE_TTL : Nat := 60000

/-- Statistics bump for an L1 hit (`cacheStats.hits++; cacheStats.memoryHits++`). -/
def bumpMemoryHit (sys : Sys) : Sys :=
  { sys with stats := { sys.stats with
      hits := sys.stats.hits + 1, memoryHits := sys.stats.memoryHits + 1 } }

/-- Statistics bump for a distributed-tier hit
(`cacheStats.hits++; cacheStats.redisHits++`). -/
def bumpRedisHit (sys : Sys) : Sys :=
  { sys with stats := { sys.stats with
      hits := sys.stats.hits + 1, redisHits := sys.stats.redisHits + 1 } }

/-- Statistics bump for a total miss (`cacheStats.misses++`). -/
def bumpMiss (sys : Sys) : Sys :=
  { sys with stats := { sys.stats with misses := sys.stats.misses + 1 } }

/-- Statistics bump used by `batchCacheGet`'s first pass, which counts a
memory hit without touching `hits` (`cacheStats.memoryHits++`). -/
def bumpMemoryHitsOnly (sys : Sys) : Sys :=
  { sys with stats := { sys.stats with memoryHits := sys.stats.memoryHits + 1 } }

/-- Statistics bump used by `batchCacheGet`'s merge pass, which counts a
redis hit without touching `hits` (`cacheStats.redisHits++`). -/
def bumpRedisHitsOnly (sys : Sys) : Sys :=
  { sys with stats := { sys.stats with redisHits := sys.stats.redisHits + 1 } }

/-- Statistics bump for a successful facade write (`cacheStats.sets++`). -/
def bumpSets (sys : Sys) : Sys :=
  { sys with stats := { sys.stats with sets := sys.stats.sets + 1 } }

/-- Options of `enhancedCacheGet`. -/
structure GetOpts where
  skipMemory : Bool := false
  decompress : Bool := false
deriving DecidableEq, Repr

/-- Options of `enhancedCacheSet`. -/
structure SetOpts where
  skipMemory : Bool := false
  compress : Bool := false
  tags : List String := []
deriving DecidableEq, Repr

/-- Outcome of a facade read: a returned value, or a thrown exception
(the decompression path of `enhancedCacheGet` is not wrapped in a
try/catch, so a gunzip failure propagates to the caller). -/
inductive GetResult where
  | ok (v : JVal)
  | threw
deriving DecidableEq, Repr

/-- Outcome of a facade write: the returned success boolean, or a thrown
exception (`JSON.stringify(undefined).length` and `push` on a non-array
tag entry throw outside any try/catch). -/
inductive SetResult where
  | ok (success : Bool)
  | threw
deriving DecidableEq, Repr

/-- Decompression of a compressed envelope's `data` field as performed by
`enhancedCacheGet` lines 68-72: `Buffer.from(data, 'base64')`, `gunzip`,
`JSON.parse`.  A packed payload `JVal.packed v` round-trips back to `v`
(zlib is lossless and parse-of-stringify is the identity on the clean
values the encoder packs); any other `data` is not a gzip stream
produced by the encoder and gunzip rejects it. -/
def decompressData : JVal → Option JVal
  | .packed v => some v
  | _ => none

/-- Decoding step of the value codec, translated from `enhancedCacheGet`
lines 67-72: when `decompress` is requested and the stored value carries
a truthy `__compressed` field, gunzip-and-parse its `data`; otherwise
the stored value passes through unchanged.  `none` models the
uncaught exception thrown by gunzip on a non-gzip payload. -/
def decodeValue (value : JVal) (decompress : Bool) : Option JVal :=
  if decompress && (value.getField "__compressed").truthy then
    decompressData (value.getField "data")
  else some value

/-- Compressed envelope built by `enhancedCacheSet` lines 99-103. -/
def mkEnvelope (value : JVal) : JVal :=
  .objCons "__compressed" (.bool true) (.objCons "data" (.packed value) .objNil)

/-- Encoding step of the value codec, translated from `enhancedCacheSet`
lines 95-104: compress when the `compress` option is set or the
serialized size exceeds 1024 characters, otherwise store the value
as-is. -/
def encodeValue (value : JVal) (compress : Bool) : JVal :=
  if compress || decide ((jsonStringify value).length > 1024) then mkEnvelope value
  else value

/-- Model of `enhancedCacheGet` (part_005, lines 45-87): L1 lookup with
lazy expiry, then Redis lookup with a truthiness test, optional
decompression, opportunistic capacity-bounded L1 population, and
hit/miss accounting. -/
def enhancedCacheGet (sys : Sys) (now : Nat) (key : String) (opts : GetOpts) :
    GetResult × Sys :=
  let l1Step : Option JVal × Sys :=
    if opts.skipMemory then (none, sys)
    else
      match mapGet sys.l1 key with
      | some slot =>
          if now < slot.expires then (some slot.value, sys)
          else (none, { sys with l1 := mapDelete sys.l1 key })
      | none => (none, sys)
  match l1Step with
  | (some v, sys₁) => (.ok v, bumpMemoryHit sys₁)
  | (none, sys₁) =>
      let value := cacheGet sys₁ now key
      if value.truthy then
        let sys₂ := bumpRedisHit sys₁
        match decodeValue value opts.decompress with
        | none => (.threw, sys₂)
        | some v =>
            if !opts.skipMemory && sys₂.l1.length < MEMORY_CACHE_SIZE then
              (.ok v, { sys₂ with
                         l1 := mapSet sys₂.l1 key ⟨v, now + MEMORY_CACHE_TTL⟩ })
            else (.ok v, sys₂)
      else (.ok .null, bumpMiss sys₁)

/-- Current index list read at the start of a tag registration step
(`(await cacheGet(tagKey)) || []`): a falsy read — in particular the
`null` of a missing tag entry — becomes the empty array. -/
def tagBase (sys : Sys) (now : Nat) (tag : String) : JVal :=
  if (cacheGet sys now ("cache:tag:" ++ tag)).truthy then
    cacheGet sys now ("cache:tag:" ++ tag)
  else .arrNil

/-- One iteration of the tag registration loop of `enhancedCacheSet`
(lines 120-124): read the current index list, push the key, and rewrite
the tag entry with the entry's own ttl (the write's success boolean is
ignored, as in the source).  `none` models the TypeError thrown by
`push` when a truthy non-array value sits at the tag key. -/
def tagStep (sys : Sys) (now : Nat) (key tag : String) (ttl : Nat) : Option Sys :=
  match (tagBase sys now tag).arrPush (.str key) with
  | some newList => some (cacheSet sys now ("cache:tag:" ++ tag) newList ttl).2
  | none => none

/-- Tag registration loop of `enhancedCacheSet` (lines 117-125): run
`tagStep` for every tag in order. -/
def registerTags (sys : Sys) (now : Nat) (key : String) (ttl : Nat) :
    List String → Option Sys
  | [] => some sys
  | tag :: rest =>
      (tagStep sys now key tag ttl).bind
        (fun sys' => registerTags sys' now key ttl rest)

/-- Model of `enhancedCacheSet` (part_005, lines 92-132): encode via the
codec (the serialization of `undefined` throws before anything runs),
write to Redis, write through to L1 when below capacity with expiry
`now + min(ttl * 1000, MEMORY_CACHE_TTL)`, register tag memberships,
and count the set on success. -/
def enhancedCacheSet (sys : Sys) (now : Nat) (key : String) (value : JVal)
    (ttl : Nat) (opts : SetOpts) : SetResult × Sys :=
  if value = .undefined then (.threw, sys)
  else
    let finalValue := encodeValue value opts.compress
    let res := cacheSet sys now key finalValue ttl
    let success := res.1
    let sys₁ := res.2
    let sys₂ :=
      if !opts.skipMemory && success && sys₁.l1.length < MEMORY_CACHE_SIZE then
        { sys₁ with
           l1 := mapSet sys₁.l1 key ⟨value, now + min (ttl * 1000) MEMORY_CACHE_TTL⟩ }
      else sys₁
    match registerTags sys₂ now key ttl opts.tags with
    | none => (.threw, sys₂)
    | some sys₃ => (.ok success, if success then bumpSets sys₃ else sys₃)

/-- First pass of `batchCacheGet` (lines 191-203): per-key L1 probe
pushing the hit value or `null`, collecting the missing keys in order,
and counting memory hits (without touching `hits`). -/
def batchPhase1 (sys : Sys) (now : Nat) :
    List String → List JVal × List String × Sys
  | [] => ([], [], sys)
  | k :: ks =>
      match mapGet sys.l1 k with
      | some slot =>
          if now < slot.expires then
            let rest := batchPhase1 (bumpMemoryHitsOnly sys) now ks
            (slot.value :: rest.1, rest.2)
          else
            let rest := batchPhase1 sys now ks
            (.null :: rest.1, k :: rest.2.1, rest.2.2)
      | none =>
          let rest := batchPhase1 sys now ks
          (.null :: rest.1, k :: rest.2.1, rest.2.2)

/-- Merge pass of `batchCacheGet` (lines 209-225): walk the first-pass
results, and at each slot that is `=== null` consume the next mget
result (out-of-range indexing yields `undefined`), counting a redis hit
and populating L1 for every consumed value that is `!== null`. -/
def batchMerge (sys : Sys) (now : Nat) :
    List String → List JVal → List JVal → List JVal × Sys
  | _, [], _ => ([], sys)
  | keys, m :: ms, rs =>
      if m.isNull then
        let r := rs.headD .undefined
        let sys' :=
          if !r.isNull then
            let sysh := bumpRedisHitsOnly sys
            if sysh.l1.length < MEMORY_CACHE_SIZE then
              { sysh with
                 l1 := mapSet sysh.l1 (keys.headD "") ⟨r, now + MEMORY_CACHE_TTL⟩ }
            else sysh
          else sys
        let rest := batchMerge sys' now keys.tail ms rs.tail
        (r :: rest.1, rest.2)
      else
        let rest := batchMerge sys now keys.tail ms rs
        (m :: rest.1, rest.2)

/-- Model of `batchCacheGet` (part_005, lines 189-229): L1 probe pass,
a single `mget` for the misses, and the in-place merge loop. -/
def batchCacheGet (sys : Sys) (now : Nat) (keys : List String) :
    List JVal × Sys :=
  let p := batchPhase1 sys now keys
  if p.2.1.length > 0 then
    let rs := cacheMGet p.2.2 now p.2.1
    batchMerge p.2.2 now keys p.1 rs
  else (p.1, p.2.2)

/-- Statistics snapshot returned by `getCacheStatistics` (part_005, lines
275-288).  The two rates are percentages; the source renders them with
`toFixed(2)` into strings, a formatting step not modelled — the fields
hold the exact rational percentage. -/
structure CacheStatistics where
  hits : Nat
  misses : Nat
  memoryHits : Nat
  redisHits : Nat
  sets : Nat
  deletes : Nat
  hitRate : Rat
  memorySize : Nat
  memoryHitRate : Rat
deriving DecidableEq, Repr

/-- Model of `getCacheStatistics` (part_005, lines 275-288): hit rate is
`hits / (hits + misses) * 100` guarded by `hits + misses > 0`, memory
hit rate is `memoryHits / hits * 100` guarded by `memoryHits > 0`,
with `0` reported when the guard fails. -/
def getCacheStatistics (sys : Sys) : CacheStatistics :=
  { hits := sys.stats.hits
    misses := sys.stats.misses
    memoryHits := sys.stats.memoryHits
    redisHits := sys.stats.redisHits
    sets := sys.stats.sets
    deletes := sys.stats.deletes
    hitRate :=
      if 0 < sys.stats.hits + sys.stats.misses then
        (sys.stats.hits : Rat) / ((sys.stats.hits : Rat) + (sys.stats.misses : Rat)) * 100
      else 0
    memorySize := sys.l1.length
    memoryHitRate :=
      if 0 < sys.stats.memoryHits then
        (sys.stats.memoryHits : Rat) / (sys.stats.hits : Rat) * 100
      else 0 }

/-- Configuration of an `OptimizedRateLimiter` instance (part_011). -/
structure RLConfig where
  windowMs : Nat
  maxRequests : Int
deriving DecidableEq, Repr

/-- Rate-limit headers set by the middleware: `X-RateLimit-Limit`,
`X-RateLimit-Remaining`, and `X-RateLimit-Reset` (the latter kept as the
millisecond timestamp serialized into the ISO string). -/
structure RLHeaders where
  limit : Int
  remaining : Int
  resetAt : Nat
deriving DecidableEq, Repr

/-- Observable outcome of one middleware invocation: whether `next()`
ran, whether a 429 was sent, the headers if they were set, and the
`retryAfter` seconds of the 429 body. -/
structure RLResult where
  nextCalled : Bool
  status429 : Bool
  headers : Option RLHeaders
  retryAfter : Option Nat
deriving DecidableEq, Repr

/-- Seconds TTL passed to `cacheIncr` by the middleware:
`Math.ceil(windowMs / 1000)`. -/
def rlTtlSec (windowMs : Nat) : Nat := (windowMs + 999) / 1000

/-- Millisecond lifetime of a rate-limit counter: its seconds TTL
converted back to milliseconds. -/
def rlTtlMs (windowMs : Nat) : Nat := rlTtlSec windowMs * 1000

/-- Rate-limit counter key for an identity (`rl:optimized:` prefix). -/
def rlKey (identity : String) : String := "rl:optimized:" ++ identity

/-- Model of `OptimizedRateLimiter.middleware` (part_011, lines 26-61):
increment the identity's counter with TTL-on-first-write; a `null`
count (Redis unavailable or erroring) fails open; otherwise set the
rate-limit headers and either send a 429 (count over the limit) or call
`next()`. -/
def middleware (cfg : RLConfig) (sys : Sys) (now : Nat) (identity : String) :
    RLResult × Sys :=
  let res := cacheIncr sys now (rlKey identity) (rlTtlSec cfg.windowMs)
  match res.1 with
  | none => (⟨true, false, none, none⟩, res.2)
  | some count =>
      let hdrs : RLHeaders :=
        ⟨cfg.maxRequests, max 0 (cfg.maxRequests - count), now + cfg.windowMs⟩
      if cfg.maxRequests < count then
        (⟨false, true, some hdrs, some (rlTtlSec cfg.windowMs)⟩, res.2)
      else
        (⟨true, false, some hdrs, none⟩, res.2)

/-- Sequence of middleware invocations at the given times, collecting the
per-call outcomes. -/
def runChecks (cfg : RLConfig) (identity : String) (sys : Sys) :
    List Nat → List RLResult × Sys
  | [] => ([], sys)
  | t :: ts =>
      let r := middleware cfg sys t identity
      let rest := runChecks cfg identity r.2 ts
      (r.1 :: rest.1, rest.2)

/-- Sequence of single-key facade reads: each call is a time, a key and
options triple. -/
def runGets (sys : Sys) (calls : List (Nat × String × GetOpts)) : Sys :=
  calls.foldl (fun s c => (enhancedCacheGet s c.1 c.2.1 c.2.2).2) sys

/-! ### Basic lemmas about the map model -/

theorem mapGet_mapSet_self {α : Type} (m : List (String × α)) (k : String) (v : α) :
    mapGet (mapSet m k v) k = some v := by
  induction m with
  | nil => simp [mapGet, mapSet]
  | cons p rest ih =>
      obtain ⟨k', v'⟩ := p
      by_cases h : k' = k <;> simp [mapGet, mapSet, h, ih]

theorem mapGet_mapSet_ne {α : Type} (m : List (String × α)) (k k' : String) (v : α)
    (h : k ≠ k') : mapGet (mapSet m k v) k' = mapGet m k' := by
  induction m with
  | nil => simp [mapGet, mapSet, h]
  | cons p rest ih =>
      obtain ⟨k₀, v₀⟩ := p
      by_cases h₀ : k₀ = k
      · subst h₀; simp [mapGet, mapSet, h]
      · simp [mapGet, mapSet, h₀, ih]

/-! ### Frame lemmas for the write path -/

theorem cacheSet_l1 (sys : Sys) (now : Nat) (k : String) (v : JVal) (ttl : Nat) :
    (cacheSet sys now k v ttl).2.l1 = sys.l1 := by
  obtain ⟨c, r, l, st⟩ := sys
  cases c <;> (simp only [cacheSet]; try split) <;> rfl

theorem cacheSet_conn (sys : Sys) (now : Nat) (k : String) (v : JVal) (ttl : Nat) :
    (cacheSet sys now k v ttl).2.conn = sys.conn := by
  obtain ⟨c, r, l, st⟩ := sys
  cases c <;> (simp only [cacheSet]; try split) <;> rfl

theorem tagStep_l1 (sys sys' : Sys) (now : Nat) (key tag : String) (ttl : Nat)
    (h : tagStep sys now key tag ttl = some sys') : sys'.l1 = sys.l1 := by
  simp only [tagStep] at h
  split at h
  · cases h; exact cacheSet_l1 ..
  · cases h

theorem tagStep_conn (sys sys' : Sys) (now : Nat) (key tag : String) (ttl : Nat)
    (h : tagStep sys now key tag ttl = some sys') : sys'.conn = sys.conn := by
  simp only [tagStep] at h
  split at h
  · cases h; exact cacheSet_conn ..
  · cases h

theorem registerTags_l1 (now : Nat) (key : String) (ttl : Nat) :
    ∀ (tgs : List String) (sys sys' : Sys),
      registerTags sys now key ttl tgs = some sys' → sys'.l1 = sys.l1 := by
  intro tgs
  induction tgs with
  | nil => intro sys sys' h; simp [registerTags] at h; simp [h]
  | cons tag rest ih =>
      intro sys sys' h
      rw [registerTags] at h
      rcases hstep : tagStep sys now key tag ttl with _ | sys₁
      · rw [hstep] at h; cases h
      · rw [hstep] at h
        simp only [Option.some_bind] at h
        rw [ih _ _ h, tagStep_l1 _ _ _ _ _ _ hstep]

theorem enhancedCacheSet_l1_frame (sys : Sys) (now : Nat) (k : String) (v : JVal)
    (ttl : Nat) (opts : SetOpts) (hcap : MEMORY_CACHE_SIZE ≤ sys.l1.length) :
    (enhancedCacheSet sys now k v ttl opts).2.l1 = sys.l1 := by
  unfold enhancedCacheSet
  split
  · rfl
  · have h1 : (cacheSet sys now k (encodeValue v opts.compress) ttl).2.l1 = sys.l1 :=
      cacheSet_l1 ..
    have hcond :
        ((!opts.skipMemory) && (cacheSet sys now k (encodeValue v opts.compress) ttl).1 &&
          decide ((cacheSet sys now k (encodeValue v opts.compress) ttl).2.l1.length <
            MEMORY_CACHE_SIZE)) = false := by
      have hlt : ¬ ((cacheSet sys now k (encodeValue v opts.compress) ttl).2.l1.length <
          MEMORY_CACHE_SIZE) := by rw [h1]; omega
      simp [hlt]
    simp only [hcond, Bool.false_eq_true, if_false]
    split
    · exact h1
    · next sys₃ hreg =>
        have h3 := registerTags_l1 _ _ _ _ _ _ hreg
        split <;> simp [bumpSets, h3, h1]

/-- Read path on an unexpired L1 slot: the facade returns the slot's
value (for any connection state). -/
theorem enhancedCacheGet_l1_hit (sys : Sys) (now : Nat) (k : String) (slot : Slot)
    (hs : mapGet sys.l1 k = some slot) (hexp : now < slot.expires) :
    (enhancedCacheGet sys now k {}).1 = .ok slot.value := by
  unfold enhancedCacheGet
  simp [hs, hexp]

/-- Full characterization of a plain (default-options) `enhancedCacheSet`
against a ready connection: the write succeeds, Redis gets the encoded
value with expiry `now + ttl * 1000`, and L1 gets a write-through copy
of the original value (bounded by the L1 TTL ceiling) exactly when it
is below capacity. -/
theorem enhancedCacheSet_ready_plain (redis : List (String × RedisEntry))
    (l1 : List (String × Slot)) (st : CacheStats) (now : Nat) (k : String)
    (v : JVal) (ttl : Nat) (hv : v ≠ .undefined) (ht : ttl ≠ 0) :
    enhancedCacheSet ⟨.ready, redis, l1, st⟩ now k v ttl {} =
      (.ok true,
       ⟨.ready,
        mapSet redis k ⟨encodeValue v false, some (now + ttl * 1000)⟩,
        if l1.length < MEMORY_CACHE_SIZE then
          mapSet l1 k ⟨v, now + min (ttl * 1000) MEMORY_CACHE_TTL⟩
        else l1,
        { st with sets := st.sets + 1 }⟩) := by
  have henc : encodeValue v false ≠ .undefined := by
    unfold encodeValue
    split
    · simp [mkEnvelope]
    · exact hv
  have hcond : ¬ (encodeValue v false = JVal.undefined ∨ ttl = 0) := by
    rintro (h | h)
    · exact henc h
    · exact ht h
  by_cases hcap : l1.length < MEMORY_CACHE_SIZE <;>
    simp [enhancedCacheSet, cacheSet, registerTags, bumpSets, hv, hcond, hcap]

/-- Read path on a key absent from L1 and not live in Redis: the facade
records a miss and returns the `null` sentinel. -/
theorem enhancedCacheGet_fresh_miss (sys : Sys) (now : Nat) (k : String)
    (hconn : sys.conn = .ready) (hl1 : mapGet sys.l1 k = none)
    (hredis : redisLive sys.redis now k = none) :
    (enhancedCacheGet sys now k {}).1 = .ok .null := by
  obtain ⟨c, redis, l1, st⟩ := sys
  cases hconn
  simp only at hl1 hredis
  unfold enhancedCacheGet cacheGet
  simp [hl1, hredis, JVal.truthy, bumpMiss]

/-- Roundtrip through the write-through L1 copy: with the connection
ready, L1 below capacity, a positive ttl and a storable value, a plain
set succeeds and an immediate plain get returns the value unchanged
(whatever its truthiness and whether or not the stored form was
compressed, since L1 holds the original value). -/
theorem set_then_get_hits_l1 (sys : Sys) (now : Nat) (k : String) (v : JVal)
    (ttl : Nat) (hconn : sys.conn = .ready)
    (hcap : sys.l1.length < MEMORY_CACHE_SIZE) (ht : 0 < ttl) (hv : v ≠ .undefined) :
    (enhancedCacheSet sys now k v ttl {}).1 = .ok true ∧
    (enhancedCacheGet (enhancedCacheSet sys now k v ttl {}).2 now k {}).1 = .ok v := by
  obtain ⟨c, redis, l1, st⟩ := sys
  cases hconn
  rw [enhancedCacheSet_ready_plain redis l1 st now k v ttl hv (by omega)]
  refine ⟨rfl, ?_⟩
  have hslot :
      mapGet
        (if l1.length < MEMORY_CACHE_SIZE then
          mapSet l1 k ⟨v, now + min (ttl * 1000) MEMORY_CACHE_TTL⟩
        else l1) k = some ⟨v, now + min (ttl * 1000) MEMORY_CACHE_TTL⟩ := by
    rw [if_pos hcap]; exact mapGet_mapSet_self ..
  have h1000 : 1000 ≤ ttl * 1000 := by
    calc 1000 = 1 * 1000 := by omega
    _ ≤ ttl * 1000 := Nat.mul_le_mul_right _ ht
  have hexp : now < now + min (ttl * 1000) MEMORY_CACHE_TTL := by
    simp [MEMORY_CACHE_TTL]; omega
  exact enhancedCacheGet_l1_hit _ now k
    ⟨v, now + min (ttl * 1000) MEMORY_CACHE_TTL⟩ hslot hexp

theorem redisLive_mapSet_ne (m : List (String × RedisEntry)) (now : Nat)
    (k k' : String) (e : RedisEntry) (h : k ≠ k') :
    redisLive (mapSet m k e) now k' = redisLive m now k' := by
  unfold redisLive
  rw [mapGet_mapSet_ne _ _ _ _ h]

/-- A plain set on one key leaves a get on a completely fresh other key
returning the miss sentinel. -/
theorem set_preserves_fresh_miss (sys : Sys) (now : Nat) (k k' : String) (v : JVal)
    (ttl : Nat) (hconn : sys.conn = .ready) (ht : 0 < ttl) (hv : v ≠ .undefined)
    (hk : k ≠ k') (hl1 : mapGet sys.l1 k' = none)
    (hredis : redisLive sys.redis now k' = none) :
    (enhancedCacheGet (enhancedCacheSet sys now k v ttl {}).2 now k' {}).1 = .ok .null := by
  obtain ⟨c, redis, l1, st⟩ := sys
  cases hconn
  simp only at hl1 hredis
  rw [enhancedCacheSet_ready_plain redis l1 st now k v ttl hv (by omega)]
  apply enhancedCacheGet_fresh_miss
  · rfl
  · show mapGet (if l1.length < MEMORY_CACHE_SIZE then
        mapSet l1 k ⟨v, now + min (ttl * 1000) MEMORY_CACHE_TTL⟩ else l1) k' = none
    split
    · rw [mapGet_mapSet_ne _ _ _ _ hk]; exact hl1
    · exact hl1
  · show redisLive (mapSet redis k ⟨encodeValue v false, some (now + ttl * 1000)⟩)
        now k' = none
    rw [redisLive_mapSet_ne _ _ _ _ _ hk]; exact hredis

/-! ### Concrete states used by witnesses and counterexamples -/

/-- Fresh system: connection ready, empty keyspace, empty L1, reset
statistics. -/
def sysReady : Sys := ⟨.ready, [], [], zeroStats⟩

/-- System whose Redis client never connected. -/
def sysDown : Sys := ⟨.absent, [], [], zeroStats⟩

/-- Distinct filler slots used to saturate the L1 cache in concrete
scenarios (keys `f0`, `f1`, ...; far-future expiry). -/
def fillerL1 : Nat → List (String × Slot)
  | 0 => []
  | n + 1 => ("f" ++ toString n, ⟨JVal.null, 1000000000⟩) :: fillerL1 n

/-- A full (1000-entry) L1 whose first slot binds the key `k` to the
value `"old"`, unexpired until far in the future. -/
def l1Full : List (String × Slot) :=
  ("k", ⟨JVal.str "old", 1000000000⟩) :: fillerL1 999

/-- Concrete system with a ready, empty Redis and L1 at capacity holding
an older entry for `k`. -/
def sysFullL1 : Sys := ⟨.ready, [], l1Full, zeroStats⟩

/-! ### C1 -/

/-- C1, counterexample: with the L1 cache at its 1000-entry capacity and
already holding an older unexpired entry for `k`, a successful
`set("k", "new", 300)` immediately followed by `get("k")` does not
return `"new"` — the write-through to L1 is skipped at capacity and the
get is served from the stale L1 slot. -/
theorem C1_counterexample :
    (enhancedCacheSet sysFullL1 0 "k" (.str "new") 300 {}).1 = .ok true ∧
    (enhancedCacheGet (enhancedCacheSet sysFullL1 0 "k" (.str "new") 300 {}).2
        0 "k" {}).1 ≠ .ok (.str "new") := by
  constructor
  · rfl
  · intro h
    rw [show (enhancedCacheGet (enhancedCacheSet sysFullL1 0 "k" (.str "new") 300 {}).2
          0 "k" {}).1 = .ok (.str "old") from rfl] at h
    simp at h

/-- C1 (amended): for every key `k`, value `v` (of any truthiness, and
whether or not its serialized size exceeds the compression threshold)
and positive ttl, if the connection is ready and the L1 cache is below
its 1000-entry capacity at set time (so the write-through to L1
happens), then a successful `set(k, v, ttl)` immediately followed by
`get(k)` returns `v`. -/
theorem C1_set_then_get_below_capacity (sys : Sys) (now : Nat) (k : String)
    (v : JVal) (ttl : Nat) (hconn : sys.conn = .ready)
    (hcap : sys.l1.length < MEMORY_CACHE_SIZE) (ht : 0 < ttl) (hv : v ≠ .undefined) :
    (enhancedCacheSet sys now k v ttl {}).1 = .ok true ∧
    (enhancedCacheGet (enhancedCacheSet sys now k v ttl {}).2 now k {}).1 = .ok v :=
  set_then_get_hits_l1 sys now k v ttl hconn hcap ht hv

/-- C1 witness: the amended roundtrip at a concrete falsy value. -/
theorem C1_set_then_get_below_capacity_witness :
    sysReady.conn = ConnState.ready ∧
    sysReady.l1.length < MEMORY_CACHE_SIZE ∧ (0 : Nat) < 300 ∧
    JVal.bool false ≠ JVal.undefined ∧
    ((enhancedCacheSet sysReady 7 "k" (.bool false) 300 {}).1 = .ok true ∧
     (enhancedCacheGet (enhancedCacheSet sysReady 7 "k" (.bool false) 300 {}).2
         7 "k" {}).1 = .ok (.bool false)) :=
  ⟨rfl, by decide, by decide, by decide,
   C1_set_then_get_below_capacity sysReady 7 "k" (.bool false) 300 rfl
     (by decide) (by decide) (by decide)⟩

/-! ### C2 -/

/-- C2: whenever the KV store is unavailable (client absent, connection
not open, or commands failing), a read returns the miss result `null`,
a write returns `false` without changing anything, and a rate-limit
check calls `next()` without a 429. -/
theorem C2_fail_open (sys : Sys) (now : Nat) (k idp : String) (v : JVal)
    (ttl : Nat) (cfg : RLConfig) (h : sys.conn ≠ .ready) :
    cacheGet sys now k = .null ∧
    (cacheSet sys now k v ttl).1 = false ∧
    (cacheSet sys now k v ttl).2 = sys ∧
    (middleware cfg sys now idp).1.nextCalled = true ∧
    (middleware cfg sys now idp).1.status429 = false := by
  obtain ⟨c, redis, l1, st⟩ := sys
  cases c
  · simp [cacheGet, cacheSet, middleware, cacheIncr]
  · simp [cacheGet, cacheSet, middleware, cacheIncr]
  · exact absurd rfl h
  · simp [cacheGet, cacheSet, middleware, cacheIncr]

/-- C2 witness: fail-open at a concrete unavailable system. -/
theorem C2_fail_open_witness :
    sysDown.conn ≠ ConnState.ready ∧
    (cacheGet sysDown 0 "k" = .null ∧
     (cacheSet sysDown 0 "k" (.str "v") 300).1 = false ∧
     (cacheSet sysDown 0 "k" (.str "v") 300).2 = sysDown ∧
     (middleware ⟨60000, 100⟩ sysDown 0 "u").1.nextCalled = true ∧
     (middleware ⟨60000, 100⟩ sysDown 0 "u").1.status429 = false) :=
  ⟨by decide, C2_fail_open sysDown 0 "k" "u" (.str "v") 300 ⟨60000, 100⟩ (by decide)⟩

/-! ### C3 -/

/-- C3, counterexample: the absent sentinel is the same `null` that a
legitimately cached `null` produces — after a successful
`set("k", null, 300)`, `get("k")` returns exactly the result of a get
on a key that was never written. -/
theorem C3_counterexample :
    (enhancedCacheSet sysReady 0 "k" .null 300 {}).1 = .ok true ∧
    (enhancedCacheGet (enhancedCacheSet sysReady 0 "k" .null 300 {}).2 0 "k" {}).1 =
      (enhancedCacheGet (enhancedCacheSet sysReady 0 "k" .null 300 {}).2
          0 "neverwritten" {}).1 := by
  exact ⟨rfl, rfl⟩

/-- C3 (amended): for every value `v` other than `null`, with the
connection ready and L1 below capacity at set time, the result of
`get(k)` right after a successful `set(k, v, ttl)` differs from the
result of a get on a fresh, never-written key (which is `ok null`);
for `v = null` — and for any falsy `v` whenever the read is served by
the distributed tier instead of L1 — the two collapse. -/
theorem C3_absent_sentinel_distinguishes (sys : Sys) (now : Nat) (k k' : String)
    (v : JVal) (ttl : Nat) (hconn : sys.conn = .ready)
    (hcap : sys.l1.length < MEMORY_CACHE_SIZE) (ht : 0 < ttl) (hv : v ≠ .undefined)
    (hnull : v ≠ .null) (hk : k ≠ k') (hl1 : mapGet sys.l1 k' = none)
    (hredis : redisLive sys.redis now k' = none) :
    (enhancedCacheGet (enhancedCacheSet sys now k v ttl {}).2 now k' {}).1 =
      .ok .null ∧
    (enhancedCacheGet (enhancedCacheSet sys now k v ttl {}).2 now k {}).1 ≠
      (enhancedCacheGet (enhancedCacheSet sys now k v ttl {}).2 now k' {}).1 := by
  have hmiss := set_preserves_fresh_miss sys now k k' v ttl hconn ht hv hk hl1 hredis
  have hget := (set_then_get_hits_l1 sys now k v ttl hconn hcap ht hv).2
  refine ⟨hmiss, ?_⟩
  rw [hget, hmiss]
  simp [hnull]

/-- C3 witness: a stored `false` is distinguishable from the absent
sentinel when served from L1. -/
theorem C3_absent_sentinel_distinguishes_witness :
    sysReady.conn = ConnState.ready ∧
    sysReady.l1.length < MEMORY_CACHE_SIZE ∧ (0 : Nat) < 300 ∧
    JVal.bool false ≠ JVal.undefined ∧ JVal.bool false ≠ JVal.null ∧
    "k" ≠ "other" ∧ mapGet sysReady.l1 "other" = none ∧
    redisLive sysReady.redis 0 "other" = none ∧
    ((enhancedCacheGet (enhancedCacheSet sysReady 0 "k" (.bool false) 300 {}).2
         0 "other" {}).1 = .ok .null ∧
     (enhancedCacheGet (enhancedCacheSet sysReady 0 "k" (.bool false) 300 {}).2
         0 "k" {}).1 ≠
       (enhancedCacheGet (enhancedCacheSet sysReady 0 "k" (.bool false) 300 {}).2
           0 "other" {}).1) :=
  ⟨rfl, by decide, by decide, by decide, by decide, by decide, rfl, rfl,
   C3_absent_sentinel_distinguishes sysReady 0 "k" "other" (.bool false) 300 rfl
     (by decide) (by decide) (by decide) (by decide) (by decide) rfl rfl⟩

/-! ### C10 -/

/-- C10: whenever the L1 cache is at its 1000-entry capacity, a set
leaves every L1 slot unchanged — including an existing unexpired slot
for the written key itself — so a get issued after the set (before that
slot's expiry) returns the previously cached value rather than the new
one. -/
theorem C10_full_l1_is_frame (sys : Sys) (now : Nat) (k : String) (v : JVal)
    (ttl : Nat) (opts : SetOpts) (slot : Slot)
    (hcap : MEMORY_CACHE_SIZE ≤ sys.l1.length)
    (hs : mapGet sys.l1 k = some slot) (hexp : now < slot.expires) :
    (enhancedCacheSet sys now k v ttl opts).2.l1 = sys.l1 ∧
    (enhancedCacheGet (enhancedCacheSet sys now k v ttl opts).2 now k {}).1 =
      .ok slot.value := by
  have hframe := enhancedCacheSet_l1_frame sys now k v ttl opts hcap
  refine ⟨hframe, ?_⟩
  apply enhancedCacheGet_l1_hit _ now k slot _ hexp
  rw [hframe]
  exact hs

/-- C10 witness: the frame property at a concrete full L1. -/
theorem C10_full_l1_is_frame_witness :
    MEMORY_CACHE_SIZE ≤ sysFullL1.l1.length ∧
    mapGet sysFullL1.l1 "k" = some ⟨.str "old", 1000000000⟩ ∧
    (0 : Nat) < 1000000000 ∧
    ((enhancedCacheSet sysFullL1 0 "k" (.str "new") 300 {}).2.l1 = sysFullL1.l1 ∧
     (enhancedCacheGet (enhancedCacheSet sysFullL1 0 "k" (.str "new") 300 {}).2
         0 "k" {}).1 = .ok (.str "old")) :=
  ⟨by decide, rfl, by decide,
   C10_full_l1_is_frame sysFullL1 0 "k" (.str "new") 300 {} ⟨.str "old", 1000000000⟩
     (by decide) rfl (by decide)⟩

/-! ### C7 -/

/-- A concrete small value shaped like the compression envelope without
being one: its `data` field is a plain string, not a gzip payload. -/
def fakeEnvelope : JVal :=
  .objCons "__compressed" (.bool true) (.objCons "data" (.str "hello") .objNil)

/-- C7, counterexample: a JSON-representable value that itself carries a
truthy `__compressed` field breaks the codec roundtrip — it is stored
as-is (its serialization is below the 1024 threshold and no compress
flag is passed), but decoding detects the envelope tag and attempts to
base64-decode and gunzip its `data` field, which is not a gzip stream:
the decode throws instead of returning the value. -/
theorem C7_counterexample :
    (jsonStringify fakeEnvelope).length ≤ 1024 ∧
    encodeValue fakeEnvelope false = fakeEnvelope ∧
    decodeValue (encodeValue fakeEnvelope false) true ≠ some fakeEnvelope := by
  decide

/-- C7 (amended): for every JSON-representable value `v` that does not
itself carry a truthy `__compressed` field, decoding the encoded form
of `v` (with decompression enabled) yields `v`: when encoding produced
the compressed envelope — by the explicit flag or by the 1024-byte
threshold — decoding unpacks it back to `v`, and when encoding stored
`v` as-is, decoding passes it through unchanged. -/
theorem C7_decode_encode_roundtrip (v : JVal) (compress : Bool)
    (_hclean : v.jsonClean = true)
    (henv : (v.getField "__compressed").truthy = false) :
    decodeValue (encodeValue v compress) true = some v := by
  unfold encodeValue
  split
  · simp [decodeValue, mkEnvelope, JVal.getField, JVal.truthy, decompressData]
  · simp [decodeValue, henv]

/-- C7 witness: the roundtrip through the compressed envelope at a
concrete value. -/
theorem C7_decode_encode_roundtrip_witness :
    (JVal.str "hello").jsonClean = true ∧
    ((JVal.str "hello").getField "__compressed").truthy = false ∧
    decodeValue (encodeValue (.str "hello") true) true = some (.str "hello") :=
  ⟨by decide, by decide,
   C7_decode_encode_roundtrip (.str "hello") true (by decide) (by decide)⟩

/-! ### C6 -/

/-- Expiry timestamp currently recorded for a key in the Redis keyspace. -/
def redisExpiryOf (sys : Sys) (k : String) : Option Nat :=
  (mapGet sys.redis k).bind (fun e => e.expiresAt)

/-- C6, counterexample: on the second check of a window (first at t=0,
second at t=30000, window 60000ms, limit 1) the counter's expiry is
t=60000, so now plus the remaining TTL is 60000; the middleware denies
but reports resetAt = now + windowMs = 90000, a fixed offset rather
than now plus the remaining TTL. -/
theorem C6_counterexample :
    (middleware ⟨60000, 1⟩ (middleware ⟨60000, 1⟩ sysReady 0 "u").2 30000 "u").1.status429
      = true ∧
    redisExpiryOf (middleware ⟨60000, 1⟩ sysReady 0 "u").2 (rlKey "u") = some 60000 ∧
    ((middleware ⟨60000, 1⟩ (middleware ⟨60000, 1⟩ sysReady 0 "u").2 30000 "u").1.headers.map
        RLHeaders.resetAt) = some 90000 ∧
    (90000 : Nat) ≠ 30000 + (60000 - 30000) := by
  decide

/-- C6 (amended): whenever the counter increment succeeds with count
`c`, the middleware sets headers limit = maxRequests,
remaining = max 0 (maxRequests - c) and resetAt = now + windowMs (a
fixed offset, not now plus the counter's remaining TTL); it denies with
a 429 carrying retryAfter = ceil(windowMs / 1000) exactly when `c`
exceeds the limit, and calls next() otherwise with
remaining = maxRequests - c. -/
theorem C6_check_reports (cfg : RLConfig) (sys : Sys) (now : Nat) (idp : String)
    (c : Int)
    (h : (cacheIncr sys now (rlKey idp) (rlTtlSec cfg.windowMs)).1 = some c) :
    (middleware cfg sys now idp).1.headers =
      some ⟨cfg.maxRequests, max 0 (cfg.maxRequests - c), now + cfg.windowMs⟩ ∧
    ((middleware cfg sys now idp).1.status429 = true ↔ cfg.maxRequests < c) ∧
    ((middleware cfg sys now idp).1.nextCalled = true ↔ c ≤ cfg.maxRequests) ∧
    (middleware cfg sys now idp).1.retryAfter =
      (if cfg.maxRequests < c then some (rlTtlSec cfg.windowMs) else none) := by
  simp only [middleware, h]
  by_cases hc : cfg.maxRequests < c <;> (simp [hc]; try omega)

/-- C6 witness: the first check of a fresh window at a concrete
configuration. -/
theorem C6_check_reports_witness :
    (cacheIncr sysReady 0 (rlKey "u") (rlTtlSec 60000)).1 = some 1 ∧
    ((middleware ⟨60000, 5⟩ sysReady 0 "u").1.headers =
       some ⟨5, max 0 ((5 : Int) - 1), 0 + 60000⟩ ∧
     ((middleware ⟨60000, 5⟩ sysReady 0 "u").1.status429 = true ↔ (5 : Int) < 1) ∧
     ((middleware ⟨60000, 5⟩ sysReady 0 "u").1.nextCalled = true ↔ (1 : Int) ≤ 5) ∧
     (middleware ⟨60000, 5⟩ sysReady 0 "u").1.retryAfter =
       (if (5 : Int) < 1 then some (rlTtlSec 60000) else none)) :=
  ⟨rfl, C6_check_reports ⟨60000, 5⟩ sysReady 0 "u" 1 rfl⟩

/-! ### C5 -/

theorem le_rlTtlMs (W : Nat) : W ≤ rlTtlMs W := by
  unfold rlTtlMs rlTtlSec
  have h1 := Nat.div_add_mod (W + 999) 1000
  have h2 : (W + 999) % 1000 < 1000 := Nat.mod_lt _ (by norm_num)
  omega

/-- First middleware invocation of a window: with a ready connection, a
fresh (absent or expired) counter and a limit of at least one, the
check is allowed and the counter restarts at 1 with its TTL set to the
window rounded up to whole seconds. -/
theorem middleware_fresh_allowed (cfg : RLConfig) (sys : Sys) (t : Nat)
    (idp : String) (hconn : sys.conn = .ready) (hW : 0 < cfg.windowMs)
    (hN : 1 ≤ cfg.maxRequests)
    (hfresh : redisLive sys.redis t (rlKey idp) = none) :
    middleware cfg sys t idp =
      (⟨true, false, some ⟨cfg.maxRequests, cfg.maxRequests - 1, t + cfg.windowMs⟩, none⟩,
       { sys with
          redis := mapSet sys.redis (rlKey idp)
            ⟨.num 1, some (t + rlTtlMs cfg.windowMs)⟩ }) := by
  obtain ⟨c, redis, l1, st⟩ := sys
  cases hconn
  simp only at hfresh
  have httl : rlTtlSec cfg.windowMs ≠ 0 := by
    unfold rlTtlSec; omega
  have hmax : max (0 : Int) (cfg.maxRequests - 1) = cfg.maxRequests - 1 := by omega
  simp [middleware, cacheIncr, hfresh, httl, rlTtlMs, hmax,
    (by omega : ¬ cfg.maxRequests < 1)]
  omega

/-- Subsequent middleware invocation within a live window: the counter
(at least 1) is bumped keeping its expiry, and the check is allowed
exactly when the new count stays within the limit. -/
theorem middleware_live (cfg : RLConfig) (sys : Sys) (t : Nat) (idp : String)
    (j : Int) (e : Nat) (hconn : sys.conn = .ready)
    (hcount : mapGet sys.redis (rlKey idp) = some ⟨.num j, some e⟩)
    (ht : t < e) (hj : 1 ≤ j) :
    middleware cfg sys t idp =
      ((if cfg.maxRequests < j + 1 then
          ⟨false, true,
           some ⟨cfg.maxRequests, max 0 (cfg.maxRequests - (j + 1)), t + cfg.windowMs⟩,
           some (rlTtlSec cfg.windowMs)⟩
        else
          ⟨true, false,
           some ⟨cfg.maxRequests, max 0 (cfg.maxRequests - (j + 1)), t + cfg.windowMs⟩,
           none⟩),
       { sys with
          redis := mapSet sys.redis (rlKey idp) ⟨.num (j + 1), some e⟩ }) := by
  obtain ⟨c, redis, l1, st⟩ := sys
  cases hconn
  simp only at hcount
  have hlive : redisLive redis t (rlKey idp) = some ⟨.num j, some e⟩ := by
    unfold redisLive; rw [hcount]; simp [ht]
  have hone : ¬ (j + 1 = 1 ∧ rlTtlSec cfg.windowMs ≠ 0) := by
    rintro ⟨h1, _⟩; omega
  simp only [middleware, cacheIncr, hlive, hone, if_false, if_neg hone]
  split <;> rfl

/-- Allowed/denied pattern of a run of checks bumping the counter from
`c + 1` up: entry `i` is `true` exactly when `c + i + 1` stays within
the limit. -/
def allowPattern (limit : Int) : Int → Nat → List Bool
  | _, 0 => []
  | c, n + 1 =>
      (if limit < c + 1 then false else true) :: allowPattern limit (c + 1) n

theorem allowPattern_replicate (limit : Int) :
    ∀ (n : Nat) (c : Int), 0 < n → c + n = limit + 1 →
      allowPattern limit c n = List.replicate (n - 1) true ++ [false] := by
  intro n
  induction n with
  | zero => intro c h0 _; omega
  | succ m ih =>
      intro c h0 hsum
      cases m with
      | zero =>
          have hc : limit < c + 1 := by push_cast at hsum; omega
          simp [allowPattern, hc]
      | succ m' =>
          have hc : ¬ limit < c + 1 := by push_cast at hsum; omega
          rw [allowPattern, ih (c + 1) (by omega) (by push_cast at hsum ⊢; omega)]
          simp [hc, List.replicate_succ]

/-- Run of checks against a live counter: the outcomes follow
`allowPattern`, the connection stays ready, and the counter ends at its
start plus the number of checks, with unchanged expiry. -/
theorem runChecks_live (cfg : RLConfig) (idp : String) :
    ∀ (ts : List Nat) (sys : Sys) (j : Int) (e : Nat),
      sys.conn = .ready → 1 ≤ j →
      mapGet sys.redis (rlKey idp) = some ⟨.num j, some e⟩ →
      (∀ t ∈ ts, t < e) →
      (runChecks cfg idp sys ts).1.map RLResult.nextCalled =
        allowPattern cfg.maxRequests j ts.length ∧
      (runChecks cfg idp sys ts).2.conn = .ready ∧
      mapGet (runChecks cfg idp sys ts).2.redis (rlKey idp) =
        some ⟨.num (j + ts.length), some e⟩ := by
  intro ts
  induction ts with
  | nil =>
      intro sys j e hconn hj hcount hts
      simp [runChecks, allowPattern, hconn, hcount]
  | cons t ts ih =>
      intro sys j e hconn hj hcount hts
      have hmid := middleware_live cfg sys t idp j e hconn hcount
        (hts t (by simp)) hj
      have hconn' :
          ({ sys with
              redis := mapSet sys.redis (rlKey idp) ⟨.num (j + 1), some e⟩ } : Sys).conn
            = .ready := hconn
      have hcount' :
          mapGet ({ sys with
              redis := mapSet sys.redis (rlKey idp) ⟨.num (j + 1), some e⟩ } : Sys).redis
            (rlKey idp) = some ⟨.num (j + 1), some e⟩ :=
        mapGet_mapSet_self ..
      obtain ⟨h1, h2, h3⟩ := ih _ (j + 1) e hconn' (by omega) hcount'
        (fun t' ht' => hts t' (by simp [ht']))
      simp only [runChecks, hmid]
      refine ⟨?_, h2, ?_⟩
      · rw [List.map_cons, h1]
        rw [List.length_cons, allowPattern]
        split <;> simp
      · rw [h3]
        have : j + 1 + (ts.length : Int) = j + ((ts.length + 1 : Nat) : Int) := by
          push_cast; ring
        rw [this, List.length_cons]

/-- C5, counterexample: with window W = 1500ms and limit 1, the counter's
TTL is ceil(1500/1000) = 2 seconds, so a check issued at t = 1600 —
after W has elapsed since the window's first check at t = 0 — still
finds the counter alive and is denied instead of being allowed with a
restarted counter. -/
theorem C5_counterexample :
    (middleware ⟨1500, 1⟩ sysReady 0 "u").1.nextCalled = true ∧
    (1500 : Nat) < 1600 ∧
    (middleware ⟨1500, 1⟩ (middleware ⟨1500, 1⟩ sysReady 0 "u").2 1600 "u").1.nextCalled
      = false ∧
    (middleware ⟨1500, 1⟩ (middleware ⟨1500, 1⟩ sysReady 0 "u").2 1600 "u").1.status429
      = true := by
  decide

/-- C5 (amended): for every identity, limit N ≥ 1 and window W, starting
from a fresh counter: the first N checks within W of the first check
are allowed, the (N+1)-th check within W is denied, and a check issued
once the counter's TTL — W rounded up to whole seconds, i.e.
1000·ceil(W/1000) ms, set only on the first increment of the window —
has elapsed since the window's first check is allowed and observes a
counter restarted at 1. -/
theorem C5_fixed_window (W N : Nat) (idp : String) (sys : Sys) (t₁ tlate : Nat)
    (ts : List Nat) (hW : 0 < W) (hN : 0 < N) (hconn : sys.conn = .ready)
    (hfresh : redisLive sys.redis t₁ (rlKey idp) = none)
    (hlen : ts.length = N) (hts : ∀ t ∈ ts, t < t₁ + W)
    (hlate : t₁ + rlTtlMs W ≤ tlate) :
    (runChecks ⟨W, (N : Int)⟩ idp sys (t₁ :: ts)).1.map RLResult.nextCalled =
      List.replicate N true ++ [false] ∧
    (middleware ⟨W, (N : Int)⟩ (runChecks ⟨W, (N : Int)⟩ idp sys (t₁ :: ts)).2
        tlate idp).1.nextCalled = true ∧
    mapGet (middleware ⟨W, (N : Int)⟩ (runChecks ⟨W, (N : Int)⟩ idp sys (t₁ :: ts)).2
        tlate idp).2.redis (rlKey idp) = some ⟨.num 1, some (tlate + rlTtlMs W)⟩ := by
  have hN1 : (1 : Int) ≤ ((N : Nat) : Int) := by exact_mod_cast hN
  have hfirst := middleware_fresh_allowed ⟨W, (N : Int)⟩ sys t₁ idp hconn hW hN1 hfresh
  have hconn₁ : ({ sys with
      redis := mapSet sys.redis (rlKey idp)
        ⟨.num 1, some (t₁ + rlTtlMs W)⟩ } : Sys).conn = .ready := hconn
  have hcount₁ : mapGet ({ sys with
      redis := mapSet sys.redis (rlKey idp)
        ⟨.num 1, some (t₁ + rlTtlMs W)⟩ } : Sys).redis (rlKey idp) =
      some ⟨.num 1, some (t₁ + rlTtlMs W)⟩ := mapGet_mapSet_self ..
  have hWle := le_rlTtlMs W
  obtain ⟨h1, h2, h3⟩ := runChecks_live ⟨W, (N : Int)⟩ idp ts
    ({ sys with
        redis := mapSet sys.redis (rlKey idp) ⟨.num 1, some (t₁ + rlTtlMs W)⟩ })
    1 (t₁ + rlTtlMs W) hconn₁ le_rfl hcount₁
    (fun t ht => by have := hts t ht; omega)
  simp only [runChecks, hfirst]
  have hlive_none : redisLive (runChecks ⟨W, (N : Int)⟩ idp
      ({ sys with
          redis := mapSet sys.redis (rlKey idp) ⟨.num 1, some (t₁ + rlTtlMs W)⟩ })
      ts).2.redis tlate (rlKey idp) = none := by
    unfold redisLive
    rw [h3]
    simp only
    rw [if_neg (by omega : ¬ tlate < t₁ + rlTtlMs W)]
  have hfin := middleware_fresh_allowed ⟨W, (N : Int)⟩ _ tlate idp h2 hW hN1 hlive_none
  refine ⟨?_, ?_, ?_⟩
  · rw [List.map_cons, h1, hlen]
    have hrep := allowPattern_replicate ((N : Nat) : Int) N 1 hN (by ring)
    rw [hrep]
    cases N with
    | zero => omega
    | succ m => simp [List.replicate_succ]
  · rw [hfin]
  · rw [hfin]
    exact mapGet_mapSet_self ..

/-- C5 witness: the amended window behaviour at W = 1000ms, N = 2. -/
theorem C5_fixed_window_witness :
    (0 : Nat) < 1000 ∧ (0 : Nat) < 2 ∧ sysReady.conn = ConnState.ready ∧
    redisLive sysReady.redis 0 (rlKey "u") = none ∧
    ([10, 20] : List Nat).length = 2 ∧ (∀ t ∈ ([10, 20] : List Nat), t < 0 + 1000) ∧
    0 + rlTtlMs 1000 ≤ 5000 ∧
    ((runChecks ⟨1000, ((2 : Nat) : Int)⟩ "u" sysReady (0 :: [10, 20])).1.map
        RLResult.nextCalled = List.replicate 2 true ++ [false] ∧
     (middleware ⟨1000, ((2 : Nat) : Int)⟩
         (runChecks ⟨1000, ((2 : Nat) : Int)⟩ "u" sysReady (0 :: [10, 20])).2
         5000 "u").1.nextCalled = true ∧
     mapGet (middleware ⟨1000, ((2 : Nat) : Int)⟩
         (runChecks ⟨1000, ((2 : Nat) : Int)⟩ "u" sysReady (0 :: [10, 20])).2
         5000 "u").2.redis (rlKey "u") = some ⟨.num 1, some (5000 + rlTtlMs 1000)⟩) :=
  ⟨by decide, by decide, rfl, rfl, by decide, by decide, by decide,
   C5_fixed_window 1000 2 "u" sysReady 0 5000 [10, 20] (by decide) (by decide)
     rfl rfl (by decide) (by decide) (by decide)⟩

/-! ### C9 -/

/-- A single-key facade read updates the statistics in exactly one of
three ways: a memory hit, a distributed-tier hit, or a miss. -/
theorem enhancedCacheGet_stats_cases (sys : Sys) (now : Nat) (k : String)
    (o : GetOpts) :
    ((enhancedCacheGet sys now k o).2).stats = (bumpMemoryHit sys).stats ∨
    ((enhancedCacheGet sys now k o).2).stats = (bumpRedisHit sys).stats ∨
    ((enhancedCacheGet sys now k o).2).stats = (bumpMiss sys).stats := by
  cases hskip : o.skipMemory with
  | true =>
      simp only [enhancedCacheGet, hskip, if_true]
      split
      · split
        · right; left; trivial
        · split
          · right; left; trivial
          · right; left; trivial
      · right; right; trivial
  | false =>
      rcases hmem : mapGet sys.l1 k with _ | slot
      · simp only [enhancedCacheGet, hskip, Bool.false_eq_true, if_false, hmem]
        split
        · split
          · right; left; trivial
          · split
            · right; left; trivial
            · right; left; trivial
        · right; right; trivial
      · by_cases hexp : now < slot.expires
        · simp only [enhancedCacheGet, hskip, Bool.false_eq_true, if_false, hmem,
            hexp, if_true]
          left; trivial
        · simp only [enhancedCacheGet, hskip, Bool.false_eq_true, if_false, hmem,
            hexp, if_false]
          split
          · split
            · right; left; trivial
            · split
              · right; left; trivial
              · right; left; trivial
          · right; right; trivial

/-- Every single-key facade read bumps exactly one of `hits`/`misses`,
and preserves the invariant that memory hits never exceed total hits. -/
theorem enhancedCacheGet_stats_step (sys : Sys) (now : Nat) (k : String)
    (o : GetOpts) :
    ((enhancedCacheGet sys now k o).2.stats.hits +
       (enhancedCacheGet sys now k o).2.stats.misses
      = sys.stats.hits + sys.stats.misses + 1) ∧
    (sys.stats.memoryHits ≤ sys.stats.hits →
      (enhancedCacheGet sys now k o).2.stats.memoryHits ≤
        (enhancedCacheGet sys now k o).2.stats.hits) := by
  obtain h | h | h := enhancedCacheGet_stats_cases sys now k o <;>
    rw [h] <;>
    simp [bumpMemoryHit, bumpRedisHit, bumpMiss] <;>
    omega

/-- Accumulated form of the statistics step over a sequence of reads. -/
theorem runGets_stats (calls : List (Nat × String × GetOpts)) :
    ∀ sys : Sys,
      (runGets sys calls).stats.hits + (runGets sys calls).stats.misses =
        sys.stats.hits + sys.stats.misses + calls.length ∧
      (sys.stats.memoryHits ≤ sys.stats.hits →
        (runGets sys calls).stats.memoryHits ≤ (runGets sys calls).stats.hits) := by
  induction calls with
  | nil => intro sys; simp [runGets]
  | cons c rest ih =>
      intro sys
      have hstep := enhancedCacheGet_stats_step sys c.1 c.2.1 c.2.2
      have hrest := ih (enhancedCacheGet sys c.1 c.2.1 c.2.2).2
      constructor
      · show (runGets (enhancedCacheGet sys c.1 c.2.1 c.2.2).2 rest).stats.hits +
            (runGets (enhancedCacheGet sys c.1 c.2.1 c.2.2).2 rest).stats.misses =
            sys.stats.hits + sys.stats.misses + (rest.length + 1)
        omega
      · intro hle
        show (runGets (enhancedCacheGet sys c.1 c.2.1 c.2.2).2 rest).stats.memoryHits ≤
            (runGets (enhancedCacheGet sys c.1 c.2.1 c.2.2).2 rest).stats.hits
        exact hrest.2 (hstep.2 hle)

/-- C9: after any sequence of n single-key get calls (and no other
operations) starting from reset statistics, hits + misses = n, and
getCacheStatistics reports hitRate = hits / (hits + misses) and
memoryHitRate = memoryHits / hits, each as a percentage, and each 0
whenever its denominator is zero. -/
theorem C9_stats_accounting (sys : Sys) (calls : List (Nat × String × GetOpts))
    (h0 : sys.stats = zeroStats) :
    (runGets sys calls).stats.hits + (runGets sys calls).stats.misses =
      calls.length ∧
    (getCacheStatistics (runGets sys calls)).hitRate =
      (if calls.length = 0 then 0
       else ((runGets sys calls).stats.hits : Rat) / (calls.length : Rat) * 100) ∧
    (getCacheStatistics (runGets sys calls)).memoryHitRate =
      (if (runGets sys calls).stats.hits = 0 then 0
       else ((runGets sys calls).stats.memoryHits : Rat) /
         ((runGets sys calls).stats.hits : Rat) * 100) := by
  obtain ⟨hsum₀, hinv₀⟩ := runGets_stats calls sys
  rw [h0] at hsum₀ hinv₀
  simp only [zeroStats] at hsum₀ hinv₀
  have hsum : (runGets sys calls).stats.hits + (runGets sys calls).stats.misses =
      calls.length := by omega
  have hmh : (runGets sys calls).stats.memoryHits ≤ (runGets sys calls).stats.hits :=
    hinv₀ (by omega)
  refine ⟨hsum, ?_, ?_⟩
  · unfold getCacheStatistics
    dsimp only
    by_cases hn : calls.length = 0
    · rw [if_neg (by omega), if_pos hn]
    · rw [if_pos (by omega), if_neg hn]
      rw [show ((runGets sys calls).stats.hits : Rat) +
            ((runGets sys calls).stats.misses : Rat) = (calls.length : Rat) by
          rw [← Nat.cast_add, hsum]]
  · unfold getCacheStatistics
    dsimp only
    by_cases hh : (runGets sys calls).stats.hits = 0
    · have hm0 : (runGets sys calls).stats.memoryHits = 0 := by omega
      rw [if_pos hh, if_neg (by omega)]
    · by_cases hm : (runGets sys calls).stats.memoryHits = 0
      · rw [if_neg hh, if_neg (by omega), hm]
        simp
      · rw [if_neg hh, if_pos (by omega)]

/-- C9 witness: two misses followed by a memory hit. -/
theorem C9_stats_accounting_witness :
    sysReady.stats = zeroStats ∧
    ((runGets sysReady [(0, "x", {}), (1, "y", {}), (2, "x", {})]).stats.hits +
       (runGets sysReady [(0, "x", {}), (1, "y", {}), (2, "x", {})]).stats.misses = 3 ∧
     (getCacheStatistics (runGets sysReady [(0, "x", {}), (1, "y", {}), (2, "x", {})])).hitRate =
       (if (3 : Nat) = 0 then 0
        else (((runGets sysReady [(0, "x", {}), (1, "y", {}), (2, "x", {})]).stats.hits : Rat) /
          ((3 : Nat) : Rat) * 100)) ∧
     (getCacheStatistics (runGets sysReady [(0, "x", {}), (1, "y", {}), (2, "x", {})])).memoryHitRate =
       (if (runGets sysReady [(0, "x", {}), (1, "y", {}), (2, "x", {})]).stats.hits = 0 then 0
        else (((runGets sysReady [(0, "x", {}), (1, "y", {}), (2, "x", {})]).stats.memoryHits : Rat) /
          (((runGets sysReady [(0, "x", {}), (1, "y", {}), (2, "x", {})]).stats.hits : Rat)) * 100))) :=
  ⟨rfl, C9_stats_accounting sysReady [(0, "x", {}), (1, "y", {}), (2, "x", {})] rfl⟩

/-! ### C8 -/

theorem cacheSet_ready_success (sys : Sys) (now : Nat) (k : String) (v : JVal)
    (ttl : Nat) (hconn : sys.conn = .ready) (hv : v ≠ .undefined) (ht : ttl ≠ 0) :
    cacheSet sys now k v ttl =
      (true, { sys with redis := mapSet sys.redis k ⟨v, some (now + ttl * 1000)⟩ }) := by
  obtain ⟨c, redis, l1, st⟩ := sys
  cases hconn
  simp [cacheSet, hv, ht]

theorem cacheSet_redis_untouched (sys : Sys) (now : Nat) (k q : String) (v : JVal)
    (ttl : Nat) (hq : k ≠ q) :
    mapGet (cacheSet sys now k v ttl).2.redis q = mapGet sys.redis q := by
  obtain ⟨c, redis, l1, st⟩ := sys
  cases c
  case ready =>
    simp only [cacheSet]
    split
    · rfl
    · exact mapGet_mapSet_ne _ _ _ _ hq
  all_goals rfl

theorem arrPush_ne_undef : ∀ (a x b : JVal), a.arrPush x = some b → b ≠ .undefined := by
  intro a x b h
  cases a <;> simp [JVal.arrPush] at h
  · rw [← h]; simp
  · obtain ⟨w, _, hw⟩ := h
    rw [← hw]; simp

theorem arrMem_arrPush : ∀ (a x b : JVal), a.arrPush x = some b →
    b.arrMem x = true := by
  intro a
  induction a with
  | arrNil =>
      intro x b h
      simp [JVal.arrPush] at h
      rw [← h]
      simp [JVal.arrMem]
  | arrCons hd tl _ ihtl =>
      intro x b h
      simp [JVal.arrPush] at h
      obtain ⟨w, hw, hb⟩ := h
      rw [← hb]
      by_cases hx : hd = x <;> simp [JVal.arrMem, hx, ihtl x w hw]
  | _ =>
      intro x b h
      simp [JVal.arrPush] at h

theorem tagStep_untouched (sys sys' : Sys) (now : Nat) (key tag : String)
    (ttl : Nat) (q : String) (h : tagStep sys now key tag ttl = some sys')
    (hq : "cache:tag:" ++ tag ≠ q) :
    mapGet sys'.redis q = mapGet sys.redis q := by
  simp only [tagStep] at h
  split at h
  · cases h; exact cacheSet_redis_untouched _ _ _ _ _ _ hq
  · cases h

theorem registerTags_untouched (now : Nat) (key : String) (ttl : Nat) :
    ∀ (tgs : List String) (sys sys' : Sys) (q : String),
      registerTags sys now key ttl tgs = some sys' →
      (∀ tg ∈ tgs, "cache:tag:" ++ tg ≠ q) →
      mapGet sys'.redis q = mapGet sys.redis q := by
  intro tgs
  induction tgs with
  | nil =>
      intro sys sys' q h _
      simp [registerTags] at h
      simp [h]
  | cons tag rest ih =>
      intro sys sys' q h hq
      rw [registerTags] at h
      rcases hstep : tagStep sys now key tag ttl with _ | sys₁
      · rw [hstep] at h; cases h
      · rw [hstep] at h
        simp only [Option.some_bind] at h
        rw [ih _ _ _ h (fun tg htg => hq tg (by simp [htg]))]
        exact tagStep_untouched _ _ _ _ _ _ _ hstep (hq tag (by simp))

/-- The tag base read is unaffected by Redis writes to other keys. -/
theorem tagBase_mapSet_ne (sys : Sys) (now : Nat) (tag : String) (k : String)
    (e : RedisEntry) (hk : k ≠ "cache:tag:" ++ tag) :
    tagBase { sys with redis := mapSet sys.redis k e } now tag = tagBase sys now tag := by
  unfold tagBase cacheGet
  obtain ⟨c, redis, l1, st⟩ := sys
  cases c <;> simp only
  case ready => rw [redisLive_mapSet_ne _ _ _ _ _ hk]

/-- Specification of the tag registration loop: with a ready connection,
pairwise-distinct tag keys and pushable bases, the loop succeeds and
rewrites every tag's entry to its pushed list with expiry
`now + ttl * 1000`. -/
theorem registerTags_spec (now : Nat) (key : String) (ttl : Nat) (httl : ttl ≠ 0) :
    ∀ (tgs : List String) (sys : Sys),
      sys.conn = .ready →
      (tgs.map (fun tg => "cache:tag:" ++ tg)).Nodup →
      (∀ tg ∈ tgs, ((tagBase sys now tg).arrPush (.str key)).isSome) →
      ∃ sys', registerTags sys now key ttl tgs = some sys' ∧ sys'.conn = .ready ∧
        ∀ tg ∈ tgs, ∃ lst, (tagBase sys now tg).arrPush (.str key) = some lst ∧
          mapGet sys'.redis ("cache:tag:" ++ tg) =
            some ⟨lst, some (now + ttl * 1000)⟩ := by
  intro tgs
  induction tgs with
  | nil =>
      intro sys hconn _ _
      exact ⟨sys, by simp [registerTags], hconn, by simp⟩
  | cons tag rest ih =>
      intro sys hconn hnodup harr
      obtain ⟨lst, hpush⟩ := Option.isSome_iff_exists.mp (harr tag (by simp))
      have hne : lst ≠ .undefined := arrPush_ne_undef _ _ _ hpush
      have hset := cacheSet_ready_success sys now ("cache:tag:" ++ tag) lst ttl
        hconn hne httl
      have hstep : tagStep sys now key tag ttl =
          some { sys with
                  redis := mapSet sys.redis ("cache:tag:" ++ tag)
                    ⟨lst, some (now + ttl * 1000)⟩ } := by
        simp only [tagStep, hpush, hset]
      have hnodup' := hnodup
      rw [List.map_cons, List.nodup_cons] at hnodup'
      obtain ⟨hhead, htail⟩ := hnodup'
      have hbase : ∀ tg ∈ rest,
          tagBase { sys with
              redis := mapSet sys.redis ("cache:tag:" ++ tag)
                ⟨lst, some (now + ttl * 1000)⟩ } now tg = tagBase sys now tg := by
        intro tg htg
        apply tagBase_mapSet_ne
        intro hcontra
        exact hhead (by rw [hcontra]; exact List.mem_map_of_mem _ htg)
      obtain ⟨sys', hreg, hconn', hprops⟩ := ih
        { sys with
           redis := mapSet sys.redis ("cache:tag:" ++ tag)
             ⟨lst, some (now + ttl * 1000)⟩ }
        hconn htail
        (fun tg htg => by rw [hbase tg htg]; exact harr tg (by simp [htg]))
      refine ⟨sys', ?_, hconn', ?_⟩
      · rw [registerTags, hstep, Option.some_bind]
        exact hreg
      · intro tg htg
        rcases List.mem_cons.mp htg with rfl | htg'
        · refine ⟨lst, hpush, ?_⟩
          rw [registerTags_untouched now key ttl rest _ _ _ hreg ?_]
          · exact mapGet_mapSet_self ..
          · intro tg' htg' hcontra
            exact hhead (by rw [← hcontra]; exact List.mem_map_of_mem _ htg')
        · obtain ⟨lst', hpush', hmap'⟩ := hprops tg htg'
          rw [hbase tg htg'] at hpush'
          exact ⟨lst', hpush', hmap'⟩

/-- Intermediate state of `enhancedCacheSet` right before the tag loop:
the main Redis write plus the capacity-bounded L1 write-through. -/
def postWriteState (sys : Sys) (now : Nat) (k : String) (v : JVal) (ttl : Nat) :
    Sys :=
  let sys₁ : Sys :=
    { sys with
       redis := mapSet sys.redis k ⟨encodeValue v false, some (now + ttl * 1000)⟩ }
  if sys₁.l1.length < MEMORY_CACHE_SIZE then
    { sys₁ with l1 := mapSet sys₁.l1 k ⟨v, now + min (ttl * 1000) MEMORY_CACHE_TTL⟩ }
  else sys₁

theorem enhancedCacheSet_tags_eq (sys : Sys) (now : Nat) (k : String) (v : JVal)
    (ttl : Nat) (tgs : List String) (sys₃ : Sys) (hconn : sys.conn = .ready)
    (hv : v ≠ .undefined) (ht : ttl ≠ 0)
    (hreg : registerTags (postWriteState sys now k v ttl) now k ttl tgs = some sys₃) :
    enhancedCacheSet sys now k v ttl ⟨false, false, tgs⟩ = (.ok true, bumpSets sys₃) := by
  obtain ⟨c, redis, l1, st⟩ := sys
  cases hconn
  have henc : encodeValue v false ≠ .undefined := by
    unfold encodeValue
    split
    · simp [mkEnvelope]
    · exact hv
  have hcond : ¬ (encodeValue v false = JVal.undefined ∨ ttl = 0) := by
    rintro (h | h)
    · exact henc h
    · exact ht h
  simp only [postWriteState] at hreg
  by_cases hcap : l1.length < MEMORY_CACHE_SIZE
  · rw [if_pos hcap] at hreg
    simp [enhancedCacheSet, cacheSet, hv, hcond, hcap, hreg]
  · rw [if_neg hcap] at hreg
    simp [enhancedCacheSet, cacheSet, hv, hcond, hcap, hreg]

/-- C8 (amended): a tagged set rewrites every tag's index entry to the
current list plus the written key, with expiry now + (this set's ttl):
the written key appears in every one of its tags' index sets when the
set completes, but the tag entry's lifetime equals the most recent
registration's ttl rather than the maximum over its members. -/
theorem C8_tag_index_registration (sys : Sys) (now : Nat) (k : String) (v : JVal)
    (ttl : Nat) (tgs : List String) (hconn : sys.conn = .ready) (ht : 0 < ttl)
    (hv : v ≠ .undefined)
    (hnodup : (tgs.map (fun tg => "cache:tag:" ++ tg)).Nodup)
    (hk : ∀ tg ∈ tgs, "cache:tag:" ++ tg ≠ k)
    (harr : ∀ tg ∈ tgs, ((tagBase sys now tg).arrPush (.str k)).isSome) :
    ∀ tg ∈ tgs, ∃ lst,
      (tagBase sys now tg).arrPush (.str k) = some lst ∧
      mapGet (enhancedCacheSet sys now k v ttl ⟨false, false, tgs⟩).2.redis
        ("cache:tag:" ++ tg) = some ⟨lst, some (now + ttl * 1000)⟩ ∧
      lst.arrMem (.str k) = true := by
  have hbaseP : ∀ tg ∈ tgs,
      tagBase (postWriteState sys now k v ttl) now tg = tagBase sys now tg := by
    intro tg htg
    have h1 : tagBase (postWriteState sys now k v ttl) now tg =
        tagBase { sys with
          redis := mapSet sys.redis k
            ⟨encodeValue v false, some (now + ttl * 1000)⟩ } now tg := by
      simp only [postWriteState]
      split <;> rfl
    rw [h1]
    exact tagBase_mapSet_ne sys now tg k _ (fun hcontra => hk tg htg (by rw [hcontra]))
  have hPconn : (postWriteState sys now k v ttl).conn = .ready := by
    simp only [postWriteState]
    split <;> simpa using hconn
  obtain ⟨sys₃, hreg, _, hprops⟩ := registerTags_spec now k ttl (by omega) tgs
    (postWriteState sys now k v ttl) hPconn hnodup
    (fun tg htg => by rw [hbaseP tg htg]; exact harr tg htg)
  have heq := enhancedCacheSet_tags_eq sys now k v ttl tgs sys₃ hconn hv (by omega) hreg
  intro tg htg
  obtain ⟨lst, hpush, hmap⟩ := hprops tg htg
  rw [hbaseP tg htg] at hpush
  refine ⟨lst, hpush, ?_, arrMem_arrPush _ _ _ hpush⟩
  rw [heq]
  simpa [bumpSets] using hmap

/-- C8, counterexample: registering `k2` under tag `t` with a 10s ttl
after `k1` was registered under `t` with a 1000s ttl rewrites the tag
entry with the 10s ttl — the index entry now expires at 10000ms even
though the longest TTL registered under the tag is 1000s (1000000ms):
a shorter-TTL registration shortens the tag set's remaining lifetime. -/
theorem C8_counterexample :
    redisExpiryOf (enhancedCacheSet sysReady 0 "k1" (.str "a") 1000
        ⟨false, false, ["t"]⟩).2 "cache:tag:t" = some 1000000 ∧
    redisExpiryOf (enhancedCacheSet (enhancedCacheSet sysReady 0 "k1" (.str "a") 1000
        ⟨false, false, ["t"]⟩).2 0 "k2" (.str "b") 10 ⟨false, false, ["t"]⟩).2
      "cache:tag:t" = some 10000 ∧
    (10000 : Nat) < 1000000 := by
  decide

/-- C8 witness: a single tagged set from a fresh system registers the
key in the tag's index set with the entry's ttl. -/
theorem C8_tag_index_registration_witness :
    sysReady.conn = ConnState.ready ∧ (0 : Nat) < 300 ∧
    JVal.str "v" ≠ JVal.undefined ∧
    ((["t"] : List String).map (fun tg => "cache:tag:" ++ tg)).Nodup ∧
    (∀ tg ∈ (["t"] : List String), "cache:tag:" ++ tg ≠ "k") ∧
    (∀ tg ∈ (["t"] : List String),
      ((tagBase sysReady 0 tg).arrPush (.str "k")).isSome) ∧
    (∀ tg ∈ (["t"] : List String), ∃ lst,
      (tagBase sysReady 0 tg).arrPush (.str "k") = some lst ∧
      mapGet (enhancedCacheSet sysReady 0 "k" (.str "v") 300
          ⟨false, false, ["t"]⟩).2.redis
        ("cache:tag:" ++ tg) = some ⟨lst, some (0 + 300 * 1000)⟩ ∧
      lst.arrMem (.str "k") = true) :=
  ⟨rfl, by decide, by decide, by decide, by decide, by decide,
   C8_tag_index_registration sysReady 0 "k" (.str "v") 300 ["t"] rfl (by decide)
     (by decide) (by decide) (by decide) (by decide)⟩

/-! ### C4 -/

/-- Value the first batch pass records for a key: the unexpired L1 value
on a hit, `null` otherwise (marking the slot for the merge pass). -/
def l1HitVal (l1 : List (String × Slot)) (now : Nat) (k : String) : JVal :=
  match mapGet l1 k with
  | some slot => if now < slot.expires then slot.value else .null
  | none => .null

/-- Whether the first batch pass treats a key as an L1 miss (absent or
expired slot). -/
def l1Miss (l1 : List (String × Slot)) (now : Nat) (k : String) : Bool :=
  match mapGet l1 k with
  | some slot => !(decide (now < slot.expires))
  | none => true

/-- Value part of the merge pass of `batchCacheGet`, separated from its
state updates: slots that are `=== null` consume the next mget result
(out-of-range indexing giving `undefined`). -/
def mergeVals : List JVal → List JVal → List JVal
  | [], _ => []
  | m :: ms, rs =>
      if m.isNull then (rs.headD .undefined) :: mergeVals ms rs.tail
      else m :: mergeVals ms rs

/-- Per-key result `batchGet` is specified to produce (the claim's
words): the unexpired L1 value when present, otherwise the KV-store
value for that key (`null` for absent keys), in the original key
order. -/
def specBatchGet (sys : Sys) (now : Nat) (keys : List String) : List JVal :=
  keys.map (fun k =>
    match mapGet sys.l1 k with
    | some slot => if now < slot.expires then slot.value else cacheGet sys now k
    | none => cacheGet sys now k)

theorem batchMerge_fst (now : Nat) :
    ∀ (ms : List JVal) (sys : Sys) (keys : List String) (rs : List JVal),
      (batchMerge sys now keys ms rs).1 = mergeVals ms rs := by
  intro ms
  induction ms with
  | nil => intro sys keys rs; simp [batchMerge, mergeVals]
  | cons m ms ih =>
      intro sys keys rs
      by_cases hm : m.isNull <;> simp [batchMerge, mergeVals, hm, ih]

theorem batchPhase1_spec (now : Nat) :
    ∀ (keys : List String) (sys : Sys),
      (batchPhase1 sys now keys).1 = keys.map (l1HitVal sys.l1 now) ∧
      (batchPhase1 sys now keys).2.1 = keys.filter (l1Miss sys.l1 now) ∧
      (batchPhase1 sys now keys).2.2.l1 = sys.l1 ∧
      (batchPhase1 sys now keys).2.2.redis = sys.redis ∧
      (batchPhase1 sys now keys).2.2.conn = sys.conn := by
  intro keys
  induction keys with
  | nil => intro sys; simp [batchPhase1]
  | cons k ks ih =>
      intro sys
      rcases hmem : mapGet sys.l1 k with _ | slot
      · have := ih sys
        simp [batchPhase1, hmem, l1HitVal, l1Miss, this.1, this.2.1, this.2.2.1,
          this.2.2.2.1, this.2.2.2.2]
      · by_cases hexp : now < slot.expires
        · have hthis := ih (bumpMemoryHitsOnly sys)
          simp only [bumpMemoryHitsOnly] at hthis
          simp [batchPhase1, hmem, hexp, l1HitVal, l1Miss, bumpMemoryHitsOnly,
            hthis.1, hthis.2.1, hthis.2.2.1, hthis.2.2.2.1, hthis.2.2.2.2]
        · have := ih sys
          simp [batchPhase1, hmem, hexp, l1HitVal, l1Miss, this.1, this.2.1,
            this.2.2.1, this.2.2.2.1, this.2.2.2.2]

theorem cacheGet_congr (sys sys' : Sys) (now : Nat) (k : String)
    (hc : sys'.conn = sys.conn) (hr : sys'.redis = sys.redis) :
    cacheGet sys' now k = cacheGet sys now k := by
  unfold cacheGet
  rw [hc, hr]

theorem cacheMGet_ready (sys : Sys) (now : Nat) (keys : List String)
    (hconn : sys.conn = .ready) :
    cacheMGet sys now keys = keys.map (fun k => cacheGet sys now k) := by
  obtain ⟨c, redis, l1, st⟩ := sys
  cases hconn
  rcases keys with _ | ⟨k, ks⟩
  · simp [cacheMGet]
  · simp only [cacheMGet, cacheGet, List.isEmpty_cons]
    rfl

/-- Alignment of the merge pass: when no unexpired L1 slot among the
keys holds `null`, consuming the per-miss results in order reproduces
the per-key specification. -/
theorem mergeVals_spec (l1 : List (String × Slot)) (now : Nat) (f : String → JVal) :
    ∀ keys : List String,
      (∀ k ∈ keys, ∀ slot, mapGet l1 k = some slot → now < slot.expires →
        slot.value.isNull = false) →
      mergeVals (keys.map (l1HitVal l1 now)) ((keys.filter (l1Miss l1 now)).map f) =
        keys.map (fun k => if l1Miss l1 now k then f k else l1HitVal l1 now k) := by
  intro keys
  induction keys with
  | nil => intro _; simp [mergeVals]
  | cons k ks ih =>
      intro hnonull
      have hks := ih (fun k' hk' => hnonull k' (by simp [hk']))
      by_cases hmiss : l1Miss l1 now k
      · have hval : l1HitVal l1 now k = .null := by
          unfold l1HitVal
          unfold l1Miss at hmiss
          rcases hmem : mapGet l1 k with _ | slot <;> rw [hmem] at hmiss <;> simp_all
        rw [List.map_cons, List.filter_cons_of_pos (by simpa using hmiss),
          List.map_cons, mergeVals]
        simp [hval, JVal.isNull, hks, hmiss]
      · have hval : (l1HitVal l1 now k).isNull = false := by
          unfold l1HitVal
          unfold l1Miss at hmiss
          rcases hmem : mapGet l1 k with _ | slot <;> rw [hmem] at hmiss
          · simp at hmiss
          · simp only [Bool.not_eq_true] at hmiss
            have hexp : now < slot.expires := by
              by_contra hcon
              simp [hcon] at hmiss
            dsimp only
            rw [if_pos hexp]
            exact hnonull k (by simp) slot hmem hexp
        rw [List.map_cons, List.filter_cons_of_neg (by simpa using hmiss),
          List.map_cons, mergeVals]
        simp [hval, hks, hmiss]

/-- C4 (amended): for every list of keys, provided the connection is
ready and no unexpired L1 slot for a requested key holds the value
`null`, batchGet returns a list of the same length whose i-th element
is the value associated with keys[i] — the unexpired L1 value if
present, otherwise the KV-store value, otherwise the `null` miss
result — merged back in the original key order. -/
theorem C4_batch_order (sys : Sys) (now : Nat) (keys : List String)
    (hconn : sys.conn = .ready)
    (hnonull : ∀ k ∈ keys, ∀ slot : Slot, mapGet sys.l1 k = some slot →
      now < slot.expires → slot.value.isNull = false) :
    (batchCacheGet sys now keys).1 = specBatchGet sys now keys ∧
    (batchCacheGet sys now keys).1.length = keys.length := by
  obtain ⟨h1, h2, hl1, hredis, hconn'⟩ := batchPhase1_spec now keys sys
  have hspec : specBatchGet sys now keys =
      keys.map (fun k => if l1Miss sys.l1 now k then cacheGet sys now k
        else l1HitVal sys.l1 now k) := by
    unfold specBatchGet
    congr 1
    funext k
    unfold l1Miss l1HitVal
    rcases hmem : mapGet sys.l1 k with _ | slot
    · simp
    · by_cases hexp : now < slot.expires <;> simp [hexp]
  have hrs : cacheMGet (batchPhase1 sys now keys).2.2 now
      (batchPhase1 sys now keys).2.1
      = (keys.filter (l1Miss sys.l1 now)).map (fun k => cacheGet sys now k) := by
    rw [cacheMGet_ready _ _ _ (by rw [hconn']; exact hconn), h2]
    congr 1
    funext k
    exact cacheGet_congr sys _ now k hconn' hredis
  have heq : (batchCacheGet sys now keys).1 = specBatchGet sys now keys := by
    rw [hspec]
    simp only [batchCacheGet]
    by_cases hmiss : (batchPhase1 sys now keys).2.1.length > 0
    · rw [if_pos hmiss, batchMerge_fst now, hrs, h1]
      exact mergeVals_spec sys.l1 now _ keys hnonull
    · rw [if_neg hmiss]
      dsimp only
      rw [h1]
      have h0 : (batchPhase1 sys now keys).2.1 = [] := by
        cases hl : (batchPhase1 sys now keys).2.1
        · rfl
        · rw [hl] at hmiss; simp at hmiss
      have hfilter : keys.filter (l1Miss sys.l1 now) = [] := by
        rw [← h2]; exact h0
      have hall : ∀ k ∈ keys, l1Miss sys.l1 now k = false := by
        intro k hk
        by_contra hcon
        have hmemf : k ∈ keys.filter (l1Miss sys.l1 now) :=
          List.mem_filter.mpr ⟨hk, by simpa using hcon⟩
        rw [hfilter] at hmemf
        cases hmemf
      apply List.map_congr_left
      intro k hk
      simp [hall k hk]
  refine ⟨heq, ?_⟩
  rw [heq, hspec]
  simp

/-- Concrete system for the batch misalignment: the L1 cache holds a
legitimate `null` for key `a`, Redis holds `"v2"` for key `b`. -/
def sysC4 : Sys :=
  ⟨.ready, [("b", ⟨.str "v2", some 1000000000⟩)],
   [("a", ⟨.null, 1000000000⟩)], zeroStats⟩

/-- C4, counterexample: with an L1-cached `null` for `a` and `"v2"` in
Redis for `b`, `batchGet(["a","b"])` should return `[null, "v2"]`, but
the merge loop treats the L1-held `null` as a miss slot and consumes
the single mget result there, returning `["v2", undefined]` — the
results are misaligned. -/
theorem C4_counterexample :
    (batchCacheGet sysC4 0 ["a", "b"]).1 = [JVal.str "v2", JVal.undefined] ∧
    specBatchGet sysC4 0 ["a", "b"] = [JVal.null, JVal.str "v2"] ∧
    (batchCacheGet sysC4 0 ["a", "b"]).1 ≠ specBatchGet sysC4 0 ["a", "b"] := by
  decide

/-- Concrete system for the C4 witness: a non-null L1 hit for `a`, a
Redis value for `b`, and nothing for `c`. -/
def sysC4W : Sys :=
  ⟨.ready, [("b", ⟨.str "vb", some 1000000000⟩)],
   [("a", ⟨.str "va", 1000000000⟩)], zeroStats⟩

/-- C4 witness: the amended in-order merge at a concrete three-key batch
covering an L1 hit, a distributed-tier hit and a total miss. -/
theorem C4_batch_order_witness :
    sysC4W.conn = ConnState.ready ∧
    (∀ k ∈ (["a", "b", "c"] : List String), ∀ slot : Slot,
      mapGet sysC4W.l1 k = some slot → 0 < slot.expires →
      slot.value.isNull = false) ∧
    ((batchCacheGet sysC4W 0 ["a", "b", "c"]).1 =
       specBatchGet sysC4W 0 ["a", "b", "c"] ∧
     (batchCacheGet sysC4W 0 ["a", "b", "c"]).1.length =
       (["a", "b", "c"] : List String).length) := by
  have hnonull : ∀ k ∈ (["a", "b", "c"] : List String), ∀ slot : Slot,
      mapGet sysC4W.l1 k = some slot → 0 < slot.expires →
      slot.value.isNull = false := by
    intro k hk slot hslot hexp
    fin_cases hk
    · have h := ((rfl :
        mapGet sysC4W.l1 "a" = some ⟨.str "va", 1000000000⟩).symm.trans hslot)
      cases h
      rfl
    · cases (rfl : mapGet sysC4W.l1 "b" = none).symm.trans hslot
    · cases (rfl : mapGet sysC4W.l1 "c" = none).symm.trans hslot
  exact ⟨rfl, hnonull, C4_batch_order sysC4W 0 ["a", "b", "c"] rfl hnonull⟩
